import Mathlib

/-!
Shallow embedding of `vrnn_model.py` (VRNN: variational recurrent neural
network).  Tensors are nested lists of real numbers; TensorFlow reductions
and elementwise operations are translated to list operations.  Randomness
(`tf.multinomial`) is threaded as an explicit oracle argument giving the
drawn categorical indices, and Python exceptions become `Except` errors.
-/

namespace VRNN

/-- rank-1 tensor: a vector of reals. -/
abbrev Vec := List ℝ

/-- rank-2 tensor `[rows, cols]`. -/
abbrev Mat := List (List ℝ)

/-- rank-3 tensor. -/
abbrev T3 := List (List (List ℝ))

/-- elementwise vector addition (`+` with broadcasting disabled). -/
def vAdd : Vec → Vec → Vec := List.zipWith (· + ·)

/-- elementwise vector subtraction. -/
def vSub : Vec → Vec → Vec := List.zipWith (· - ·)

/-- elementwise vector multiplication. -/
def vMul : Vec → Vec → Vec := List.zipWith (· * ·)

/-- elementwise vector division. -/
noncomputable def vDiv : Vec → Vec → Vec := List.zipWith (· / ·)

/-- map a scalar function over a matrix. -/
def mMap (f : ℝ → ℝ) (m : Mat) : Mat := m.map (List.map f)

/-- elementwise matrix addition. -/
def mAdd : Mat → Mat → Mat := List.zipWith vAdd

/-- elementwise matrix subtraction. -/
def mSub : Mat → Mat → Mat := List.zipWith vSub

/-- elementwise matrix multiplication. -/
def mMul : Mat → Mat → Mat := List.zipWith vMul

/-- elementwise matrix division. -/
noncomputable def mDiv : Mat → Mat → Mat := List.zipWith vDiv

/-- `tf.reduce_sum(m, axis=[1])`: one sum per row. -/
def rowSums (m : Mat) : Vec := m.map List.sum

/-- `tf.reduce_mean` of a rank-1 tensor. -/
noncomputable def reduceMean (v : Vec) : ℝ := v.sum / v.length

/-- flatten a rank-2 tensor to a vector. -/
def flat2 (m : Mat) : Vec := m.foldr (· ++ ·) []

/-- flatten a rank-3 tensor to a vector. -/
def flat3 (t : T3) : Vec := flat2 (t.map flat2)

/-- `tf.concat(axis=1)` of two matrices with equally many rows. -/
def matConcatCols : Mat → Mat → Mat := List.zipWith (· ++ ·)

/-- `tf.slice(m, [0, start], [-1, len])`: columns `start..start+len` of every row. -/
def sliceCols (m : Mat) (start len : ℕ) : Mat := m.map (fun row => (row.drop start).take len)

/-- `tf.sign` on reals. -/
noncomputable def sign (x : ℝ) : ℝ := if 0 < x then 1 else if x < 0 then -1 else 0

/-- `tf.sigmoid`. -/
noncomputable def sigmoid (x : ℝ) : ℝ := 1 / (1 + Real.exp (-x))

/-- `tf.reduce_max` over a vector (one row); TF errors on an empty reduction,
here the empty case returns 0 (it is never reached under the spec's shapes). -/
def rowMax : Vec → ℝ
  | [] => 0
  | x :: xs => xs.foldl max x

/-- `tf.nn.softmax` applied to one row. -/
noncomputable def softmaxRow (v : Vec) : Vec :=
  v.map (fun l => Real.exp l / (v.map Real.exp).sum)

/-- `tf.nn.softmax` over the last axis of a rank-2 tensor. -/
noncomputable def softmax (m : Mat) : Mat := m.map softmaxRow

/-- `tf.reduce_logsumexp(m, axis=[0])` for a `[K, batch]` tensor: one
log-sum-exp per batch column. -/
noncomputable def reduceLogSumExp0 (m : Mat) : Vec :=
  (List.transpose m).map (fun col => Real.log ((col.map Real.exp).sum))

/-- checks whether `n` is an initial segment of `hay` (character lists). -/
def chMatch : List Char → List Char → Bool
  | [], _ => true
  | _ :: _, [] => false
  | a :: as, b :: bs => a == b && chMatch as bs

/-- checks whether `needle` occurs contiguously inside `hay`. -/
def chFind (needle : List Char) : List Char → Bool
  | [] => needle.isEmpty
  | b :: rest => chMatch needle (b :: rest) || chFind needle rest

/-- Python's substring test `needle in hay`. -/
def strContains (hay needle : String) : Bool := chFind needle.data hay.data

/-- a tensor as passed around in the dynamically-typed `params` tuples:
either rank-2 (plain Gaussian parameters) or rank-3 (mixture parameters). -/
inductive Tsr
  | t2 (m : Mat)
  | t3 (t : T3)

/-- a monitored value in the `sub_losses` list: TF scalar or rank-1 tensor. -/
inductive STen
  | s0 (x : ℝ)
  | s1 (v : Vec)

/-- Python exceptions surfacing from the model code: `NotImplementedError`
for an unsupported family / model string, `badParams` for a tuple-unpacking
or indexing failure on malformed parameters. -/
inductive SampErr
  | notImplemented
  | badParams
deriving Repr, DecidableEq

/-- first phase of `sample` (lines 7-9): if `'bin' in dist`, pop the logits
off the end of the parameter tuple (`params[-1]` raises on an empty tuple). -/
def stripBin (params : List Tsr) (dist : String) : Except SampErr (List Tsr × Option Tsr) :=
  if strContains dist "bin" then
    match params.getLast? with
    | none => .error .badParams
    | some lg => .ok (params.dropLast, some lg)
  else
    .ok (params, none)

/-- second phase of `sample` (lines 10-23): the family dispatch on the
keywords `'gauss'` and `'gm'`, raising `NotImplementedError` otherwise.
`mnDraw` is the oracle for `tf.multinomial(pi_logits, num_samples=1)`:
applied to the logits it yields the drawn component index per batch row. -/
noncomputable def sampleCore (params : List Tsr) (eps : Mat) (dist : String)
    (mnDraw : Mat → List ℕ) : Except SampErr Mat :=
  if strContains dist "gauss" then
    match params with
    | [Tsr.t2 mean, Tsr.t2 cov] => .ok (mAdd mean (mMul (mMap Real.sqrt cov) eps))
    | _ => .error .badParams
  else if strContains dist "gm" then
    match params with
    | [Tsr.t3 means, Tsr.t3 covs, Tsr.t2 pi_logits] =>
      let choices := mnDraw pi_logits
      let batch_size := choices.length
      let ids := List.range batch_size
      let idx_tensor := ids.zip choices
      let chosen_means : Mat := idx_tensor.map (fun p => (means.getD p.1 []).getD p.2 [])
      let chosen_covs : Mat := idx_tensor.map (fun p => (covs.getD p.1 []).getD p.2 [])
      .ok (mAdd chosen_means (mMul (mMap Real.sqrt chosen_covs) eps))
    | _ => .error .badParams
  else
    .error .notImplemented

/-- last phase of `sample` (lines 25-28): if `'bin' in dist`, append the
sigmoid of the logits as extra output columns. -/
noncomputable def appendBin (s : Mat) (binLogits : Option Tsr) (dist : String) :
    Except SampErr Mat :=
  if strContains dist "bin" then
    match binLogits with
    | some (Tsr.t2 logits) => .ok (matConcatCols s (mMap sigmoid logits))
    | _ => .error .badParams
  else
    .ok s

/-- embeds `sample(params, eps, dist)` of `vrnn_model.py` (lines 5-28),
composed from its three phases. -/
noncomputable def sample (params : List Tsr) (eps : Mat) (dist : String)
    (mnDraw : Mat → List ℕ) : Except SampErr Mat :=
  match stripBin params dist with
  | .error e => .error e
  | .ok (params, binLogits) =>
    match sampleCore params eps dist mnDraw with
    | .error e => .error e
    | .ok s => appendBin s binLogits dist

/-- embeds `gaussian_log_p(params_out, x_target, dim)`: log-density of the
target rows in a diagonal Gaussian, returning the decomposition
`(log_p, log_x_norm, log_x_exp, |x_diff|)`. -/
noncomputable def gaussian_log_p (params_out : Mat × Mat) (x_target : Mat) (dim : ℝ) :
    Vec × Vec × Vec × Mat :=
  let mean_x := params_out.1
  let cov_x := params_out.2
  let x_diff := mSub x_target mean_x
  let x_square := rowSums (mMul (mDiv x_diff cov_x) x_diff)
  let log_x_exp := x_square.map (fun s => -0.5 * s)
  let log_cov_x_det := rowSums (mMap Real.log cov_x)
  let log_x_norm := log_cov_x_det.map (fun d0 => -0.5 * (dim * Real.log (2 * Real.pi) + d0))
  let log_p := vAdd log_x_norm log_x_exp
  (log_p, log_x_norm, log_x_exp, mMap (fun v => |v|) x_diff)

/-- embeds `gm_log_p(params_out, x_target, dim)`: the mixture parameters come
in as `(means, covs, pi_logits)` and are transposed so the component axis is
outermost before per-component Gaussian densities are combined with
`reduce_logsumexp` over components.  Note the weight enters `log_x_norm` as
`softmax(pi_logits)` (the code's `pi_x`), exactly as in the source. -/
noncomputable def gm_log_p (params_out : T3 × T3 × Mat) (x_target : Mat) (dim : ℝ) :
    Vec × Mat × Mat × T3 :=
  let pi_x0 := softmax params_out.2.2
  let mean_x := List.transpose params_out.1
  let cov_x := List.transpose params_out.2.1
  let pi_x := List.transpose pi_x0
  let x_diff := mean_x.map (fun mk => mSub x_target mk)
  let x_square := List.zipWith (fun dk ck => rowSums (mMul (mDiv dk ck) dk)) x_diff cov_x
  let log_x_exp := x_square.map (List.map (fun s => -0.5 * s))
  let log_cov_x_det := cov_x.map (fun ck => rowSums (mMap Real.log ck))
  let log_x_norm := List.zipWith
    (fun detk pik => vAdd (detk.map (fun d0 => -0.5 * (dim * Real.log (2 * Real.pi) + d0))) pik)
    log_cov_x_det pi_x
  let log_p := reduceLogSumExp0 (mAdd log_x_norm log_x_exp)
  (log_p, log_x_norm, log_x_exp, x_diff.map (mMap (fun v => |v|)))

/-- embeds `gaussian_kl_div(mean_0, cov_0, mean_1, cov_1, dim)`: closed-form
KL divergence from the diagonal Gaussian given by the first two arguments to
the one given by the last two, one value per batch row. -/
noncomputable def gaussian_kl_div (mean_0 cov_0 mean_1 cov_1 : Mat) (dim : ℝ) : Vec :=
  let mean_diff := mSub mean_1 mean_0
  let cov_1_inv := mMap (fun x => x⁻¹) cov_1
  let log_cov_1_det := rowSums (mMap Real.log cov_1)
  let log_cov_0_det := rowSums (mMap Real.log cov_0)
  let log_term := vSub log_cov_1_det log_cov_0_det
  let trace_term := rowSums (mMul cov_1_inv cov_0)
  let square_term := rowSums (mMul (mMul mean_diff cov_1_inv) mean_diff)
  List.zipWith (fun ts lt => 0.5 * (ts - dim + lt)) (vAdd trace_term square_term) log_term

/-- `tf.nn.sigmoid_cross_entropy_with_logits` on one scalar:
`x - x*z + log(1 + exp(-x))`. -/
noncomputable def sigmoidCeWithLogits (x z : ℝ) : ℝ := x - x * z + Real.log (1 + Real.exp (-x))

/-- embeds `ce_loss(logits_out, bin_target)`: elementwise binary cross entropy
on a `[batch, 1]` tensor, squeezed to one scalar per batch row. -/
noncomputable def ce_loss (logits_out bin_target : Mat) : Vec :=
  (List.zipWith (List.zipWith sigmoidCeWithLogits) logits_out bin_target).map
    (fun row => row.headD 0)

/-- a per-step diagnostic tensor (`log_x_norm`, `log_x_exp`, `abs_diff`):
rank-1 for the plain-Gaussian kernel, rank-2/rank-3 for the mixture kernel. -/
inductive DTen
  | d1 (v : Vec)
  | d2 (m : Mat)
  | d3 (t : T3)

/-- `tf.reduce_mean` over every axis of a diagnostic tensor. -/
noncomputable def reduceMeanAll : DTen → ℝ
  | .d1 v => reduceMean v
  | .d2 m => reduceMean (flat2 m)
  | .d3 t => reduceMean (flat3 t)

/-- the recognized configuration options of `param_dict`. -/
structure ParamDict where
  model : String
  z_dim : ℕ
  x_dim : ℕ
  in_dim : ℕ
  batch_size : ℕ
  seq_length : ℕ
  kl_weight : ℝ
  masking : Bool
  mask_value : ℝ

/-- `tf.where(tf.equal(mask, 0.0), mask, v)`: keep `v` where the mask is
live, substitute the (zero) mask value where it is not. -/
noncomputable def maskWhere (mask v : Vec) : Vec :=
  List.zipWith (fun m x => if m = 0 then m else x) mask v

/-- the `if/elif` model dispatch of `loss` (lines 100-115): selects the
log-likelihood kernel, slices off the binary target column for the `_bin`
variants, and computes the optional cross-entropy term.  Returns
`(log_p, log_x_norm, log_x_exp, abs_diff, maybe_ce)`. -/
noncomputable def lossBody (params_out : List Tsr) (x_target : Mat) (pd : ParamDict) :
    Except SampErr (Vec × DTen × DTen × DTen × List Vec) :=
  if pd.model = "gauss_out" then
    match params_out with
    | [Tsr.t2 mean_x, Tsr.t2 cov_x] =>
      let r := gaussian_log_p (mean_x, cov_x) x_target (pd.x_dim : ℝ)
      .ok (r.1, .d1 r.2.1, .d1 r.2.2.1, .d2 r.2.2.2, [])
    | _ => .error .badParams
  else if pd.model = "gm_out" then
    match params_out with
    | [Tsr.t3 means, Tsr.t3 covs, Tsr.t2 pl] =>
      let r := gm_log_p (means, covs, pl) x_target (pd.x_dim : ℝ)
      .ok (r.1, .d2 r.2.1, .d2 r.2.2.1, .d3 r.2.2.2, [])
    | _ => .error .badParams
  else if pd.model = "gauss_out_bin" then
    match params_out with
    | [Tsr.t2 mean_x, Tsr.t2 cov_x, Tsr.t2 logits] =>
      let dist_target := sliceCols x_target 0 pd.x_dim
      let bin_target := sliceCols x_target pd.x_dim 1
      let r := gaussian_log_p (mean_x, cov_x) dist_target (pd.x_dim : ℝ)
      .ok (r.1, .d1 r.2.1, .d1 r.2.2.1, .d2 r.2.2.2, [ce_loss logits bin_target])
    | _ => .error .badParams
  else if pd.model = "gm_out_bin" then
    match params_out with
    | [Tsr.t3 means, Tsr.t3 covs, Tsr.t2 pl, Tsr.t2 logits] =>
      let dist_target := sliceCols x_target 0 pd.x_dim
      let bin_target := sliceCols x_target pd.x_dim 1
      let r := gm_log_p (means, covs, pl) dist_target (pd.x_dim : ℝ)
      .ok (r.1, .d2 r.2.1, .d2 r.2.2.1, .d3 r.2.2.2, [ce_loss logits bin_target])
    | _ => .error .badParams
  else
    .error .notImplemented

/-- embeds `loss(x_target, mean_0, cov_0, mean_z, cov_z, params_out, param_dict)`
(lines 92-145): variational bound plus the `sub_losses` monitoring list. -/
noncomputable def loss (x_target mean_0 cov_0 mean_z cov_z : Mat) (params_out : List Tsr)
    (pd : ParamDict) : Except SampErr (ℝ × List STen) :=
  let kl_div := gaussian_kl_div mean_z cov_z mean_0 cov_0 (pd.z_dim : ℝ)
  match lossBody params_out x_target pd with
  | .error e => .error e
  | .ok body =>
  let log_p := body.1
  let log_x_norm := body.2.1
  let log_x_exp := body.2.2.1
  let abs_diff := body.2.2.2.1
  let maybe_ce := body.2.2.2.2
  if pd.masking then
    let zero_vals := mMap (fun v => |v - pd.mask_value|) x_target
    let mask := zero_vals.map (fun row => sign (rowMax row))
    let num_live_samples := mask.sum
    let log_p2 := (maskWhere mask log_p).sum / num_live_samples
    let kl2 := (maskWhere mask kl_div).sum / num_live_samples
    let bound := pd.kl_weight * kl2 - log_p2
    if strContains pd.model "bin" then
      let ce2 := (maskWhere mask (maybe_ce.headD [])).sum / num_live_samples
      .ok (bound + ce2,
        [STen.s0 kl2, STen.s0 log_p2, STen.s0 (reduceMeanAll log_x_norm),
         STen.s0 (reduceMeanAll log_x_exp), STen.s0 (reduceMeanAll abs_diff), STen.s0 ce2])
    else
      .ok (bound,
        [STen.s0 kl2, STen.s0 log_p2, STen.s0 (reduceMeanAll log_x_norm),
         STen.s0 (reduceMeanAll log_x_exp), STen.s0 (reduceMeanAll abs_diff)])
  else
    let kl2 := reduceMean kl_div
    let log_p2 := reduceMean log_p
    let bound := pd.kl_weight * kl2 - log_p2
    if strContains pd.model "bin" then
      .ok (bound + reduceMean (maybe_ce.headD []),
        [STen.s0 kl2, STen.s0 log_p2, STen.s0 (reduceMeanAll log_x_norm),
         STen.s0 (reduceMeanAll log_x_exp), STen.s0 (reduceMeanAll abs_diff),
         STen.s1 (maybe_ce.headD [])])
    else
      .ok (bound,
        [STen.s0 kl2, STen.s0 log_p2, STen.s0 (reduceMeanAll log_x_norm),
         STen.s0 (reduceMeanAll log_x_exp), STen.s0 (reduceMeanAll abs_diff)])

/-- the function bundle `fun_dict`: the five external collaborators plus the
encoder, over an opaque recurrent-cell state type `F`. -/
structure FunDict (F : Type) where
  phi_x : Mat → Mat
  phi_prior : Mat → List Tsr
  phi_enc : Mat → Mat → Mat × Mat
  phi_z : Mat → Mat
  phi_dec : Mat → Mat → List Tsr
  f_theta : Mat → F → Mat × F

/-- embeds `generation(hid_pl, f_state, eps_z, eps_x, pd, fd)` (lines
197-208): one autoregressive generation step. -/
noncomputable def generation {F : Type} (hid_pl : Mat) (f_state : F) (eps_z eps_x : Mat)
    (pd : ParamDict) (fd : FunDict F) (mnDraw : Mat → List ℕ) :
    Except SampErr (Mat × Mat × F) :=
  let params_prior := fd.phi_prior hid_pl
  match sample params_prior eps_z "gauss" mnDraw with
  | .error e => .error e
  | .ok z =>
    let phi_z := fd.phi_z z
    let params_out := fd.phi_dec phi_z hid_pl
    match sample params_out eps_x pd.model mnDraw with
    | .error e => .error e
    | .ok x =>
      let phi_x := fd.phi_x x
      let f_in := matConcatCols phi_x phi_z
      let fo := fd.f_theta f_in f_state
      .ok (x, fo.1, fo.2)

/-- the loop variables threaded by the generation while-loop, in source
order `(x_pl, hid_pl, count, f_state, eps_z, eps_x)`. -/
structure GenAcc (F : Type) where
  x_pl : T3
  hid_pl : Mat
  count : ℕ
  f_state : F
  eps_z : T3
  eps_x : T3

/-- embeds `gen_loop` (lines 211-227): slice the step's noise frames, run one
generation step, splice the sampled frame into slot `count` of the output
buffer, and advance the counter. -/
noncomputable def gen_loop {F : Type} (pd : ParamDict) (fd : FunDict F)
    (mnDraw : Mat → List ℕ) (s : GenAcc F) : Except SampErr (GenAcc F) :=
  let eps_z_t := s.eps_z.getD s.count []
  let eps_x_t := s.eps_x.getD s.count []
  match generation s.hid_pl s.f_state eps_z_t eps_x_t pd fd mnDraw with
  | .error e => .error e
  | .ok r =>
    let x_t := r.1
    let x_old := s.x_pl.take s.count
    let x_empty := s.x_pl.drop (s.count + 1)
    let x_pl := x_old ++ [x_t] ++ x_empty
    .ok ⟨x_pl, r.2.1, s.count + 1, r.2.2, s.eps_z, s.eps_x⟩

/-- the loop variables threaded by the training while-loop, in source order
`(x_pl, hid_pl, err_acc, count, f_state, eps_z, debug_tensors)`; `count` is
argument number 3 (0-indexed), as read by `train_stop_fun`. -/
structure TrainAcc (F : Type) where
  x_pl : T3
  hid_pl : Mat
  err_acc : ℝ
  count : ℕ
  f_state : F
  eps_z : T3
  debug_tensors : List STen × List Mat

/-- embeds the predicate returned by `get_train_stop_fun(num_iter)`:
`tf.less(args[3], num_iter)`. -/
def train_stop_fun {F : Type} (num_iter : ℕ) (args : TrainAcc F) : Bool :=
  decide (args.count < num_iter)

/-- embeds the predicate returned by `get_gen_stop_fun(num_iter)`:
`tf.less(args[2], num_iter)`. -/
def gen_stop_fun {F : Type} (num_iter : ℕ) (args : GenAcc F) : Bool :=
  decide (args.count < num_iter)

/-- Modelled from the spec: the Sequence Loop Driver (`tf.while_loop`) is not
part of this repository's source; per §4.5 it is a generic bounded-iteration
harness that invokes `body` while `cond` holds of the accumulator, with a
statically known iteration bound (`fuel`).  Returns the final accumulator and
the number of body invocations performed. -/
def while_loop {σ : Type _} (cond : σ → Bool) (body : σ → σ) : ℕ → σ → σ × ℕ
  | 0, s => (s, 0)
  | fuel + 1, s =>
    if cond s then
      let r := while_loop cond body fuel (body s)
      (r.1, r.2 + 1)
    else (s, 0)

end VRNN

example : VRNN.strContains "gauss_out_bin" "bin" = true := by decide

example : VRNN.strContains "gm_out" "gauss" = false := by decide

namespace VRNN

/-- driver invariant: with a stop predicate `count < N` and a body that
increments the counter by one, the driver runs `N - count` more iterations. -/
theorem while_loop_counts {σ : Type _} (cond : σ → Bool) (body : σ → σ) (cnt : σ → ℕ)
    (N : ℕ) (hcond : ∀ s, cond s = decide (cnt s < N))
    (hbody : ∀ s, cnt (body s) = cnt s + 1) :
    ∀ (fuel : ℕ) (s : σ), cnt s ≤ N → N - cnt s ≤ fuel →
      cnt (while_loop cond body fuel s).1 = N ∧
      (while_loop cond body fuel s).2 = N - cnt s := by
  intro fuel
  induction fuel with
  | zero =>
    intro s h1 h2
    have hEq : cnt s = N := by omega
    simp [while_loop, hEq]
  | succ n ih =>
    intro s h1 h2
    by_cases h : cnt s < N
    · have hc : cond s = true := by rw [hcond]; simp [h]
      have hr := ih (body s) (by rw [hbody]; omega) (by rw [hbody]; omega)
      rw [hbody] at hr
      simp only [while_loop, hc, if_true]
      exact ⟨hr.1, by omega⟩
    · have hEq : cnt s = N := by omega
      have hc : cond s = false := by rw [hcond]; simp [h]
      simp [while_loop, hc, hEq]

/-- C7: for every `seq_length = N ≥ 1`, the sequence loop driver — with the
stop predicates from `get_train_stop_fun` (reading loop variable 3) and
`get_gen_stop_fun` (reading loop variable 2), a step function that increments
the counter by exactly 1, the counter starting at 0, and the statically known
iteration bound — performs exactly `N` step-function invocations and
terminates with final counter `N`, in both the inference/training mode and
the generation mode. -/
theorem loop_driver_runs_seq_length_steps {F : Type} (N fuel : ℕ) (hN : 1 ≤ N)
    (bodyT : TrainAcc F → TrainAcc F) (bodyG : GenAcc F → GenAcc F)
    (hbT : ∀ s, (bodyT s).count = s.count + 1) (hbG : ∀ s, (bodyG s).count = s.count + 1)
    (s0t : TrainAcc F) (s0g : GenAcc F) (h0t : s0t.count = 0) (h0g : s0g.count = 0)
    (hfuel : N ≤ fuel) :
    ((while_loop (train_stop_fun N) bodyT fuel s0t).2 = N ∧
      (while_loop (train_stop_fun N) bodyT fuel s0t).1.count = N) ∧
    ((while_loop (gen_stop_fun N) bodyG fuel s0g).2 = N ∧
      (while_loop (gen_stop_fun N) bodyG fuel s0g).1.count = N) := by
  have ht := while_loop_counts (train_stop_fun N) bodyT TrainAcc.count N
    (fun s => rfl) hbT fuel s0t (by omega) (by omega)
  have hg := while_loop_counts (gen_stop_fun N) bodyG GenAcc.count N
    (fun s => rfl) hbG fuel s0g (by omega) (by omega)
  rw [h0t] at ht
  rw [h0g] at hg
  exact ⟨⟨by rw [ht.2]; omega, ht.1⟩, ⟨by rw [hg.2]; omega, hg.1⟩⟩

/-- witness for C7 at `N = 2`, `fuel = 3`, with trivially incrementing step
functions on concrete accumulators. -/
theorem loop_driver_runs_seq_length_steps_witness :
    (1 ≤ 2 ∧ (∀ s : TrainAcc Unit, ({ s with count := s.count + 1 } : TrainAcc Unit).count = s.count + 1) ∧ 2 ≤ 3) ∧
    (((while_loop (train_stop_fun 2) (fun s : TrainAcc Unit => { s with count := s.count + 1 }) 3
        ⟨[], [], 0, 0, (), [], ([], [])⟩).2 = 2 ∧
      (while_loop (train_stop_fun 2) (fun s : TrainAcc Unit => { s with count := s.count + 1 }) 3
        ⟨[], [], 0, 0, (), [], ([], [])⟩).1.count = 2) ∧
     ((while_loop (gen_stop_fun 2) (fun s : GenAcc Unit => { s with count := s.count + 1 }) 3
        ⟨[], [], 0, (), [], []⟩).2 = 2 ∧
      (while_loop (gen_stop_fun 2) (fun s : GenAcc Unit => { s with count := s.count + 1 }) 3
        ⟨[], [], 0, (), [], []⟩).1.count = 2)) :=
  ⟨⟨by omega, fun s => rfl, by omega⟩,
    loop_driver_runs_seq_length_steps 2 3 (by omega)
      (fun s => { s with count := s.count + 1 }) (fun s => { s with count := s.count + 1 })
      (fun s => rfl) (fun s => rfl)
      ⟨[], [], 0, 0, (), [], ([], [])⟩ ⟨[], [], 0, (), [], []⟩ rfl rfl (by omega)⟩

/-- the bin-strip phase can only raise the malformed-parameters error. -/
theorem stripBin_ne_notImplemented (params : List Tsr) (dist : String) :
    stripBin params dist ≠ .error .notImplemented := by
  simp only [stripBin]
  repeat' split
  all_goals simp

/-- when either family keyword matches, the family dispatch never raises the
unsupported-family error. -/
theorem sampleCore_ne_notImplemented (params : List Tsr) (eps : Mat) (dist : String)
    (mnDraw : Mat → List ℕ)
    (h : strContains dist "gauss" = true ∨ strContains dist "gm" = true) :
    sampleCore params eps dist mnDraw ≠ .error .notImplemented := by
  simp only [sampleCore]
  rcases h with h | h
  · simp only [h]
    repeat' split
    all_goals simp_all
  · cases hga : strContains dist "gauss"
    · simp only [hga, h, Bool.false_eq_true, if_false, if_true]
      repeat' split
      all_goals simp_all
    · simp only [hga]
      repeat' split
      all_goals simp_all

/-- the bin-append phase can only raise the malformed-parameters error. -/
theorem appendBin_ne_notImplemented (s : Mat) (bl : Option Tsr) (dist : String) :
    appendBin s bl dist ≠ .error .notImplemented := by
  simp only [appendBin]
  repeat' split
  all_goals simp

/-- C5: `sample` raises the unsupported-family error exactly for family
strings matching neither recognized keyword: (i) whenever `dist` contains
neither `"gauss"` nor `"gm"` it fails with `NotImplementedError` (provided
that, when the string also requests the Bernoulli side-channel, the parameter
tuple is non-empty, so that Python's `params[-1]` reaches the family dispatch
instead of raising `IndexError` first); (ii) for keyword `"gauss"` with
well-formed Gaussian parameters it returns the reparameterized sample;
(iii) for keyword `"gm"` with well-formed mixture parameters it returns a
sample; (iv) conversely, whenever either keyword matches, the
unsupported-family error is never raised. -/
theorem sample_family_dispatch :
    (∀ (dist : String) (params : List Tsr) (eps : Mat) (mnDraw : Mat → List ℕ),
      strContains dist "gauss" = false → strContains dist "gm" = false →
      (strContains dist "bin" = true → params ≠ []) →
      sample params eps dist mnDraw = .error .notImplemented) ∧
    (∀ (mean cov eps : Mat) (mnDraw : Mat → List ℕ),
      sample [.t2 mean, .t2 cov] eps "gauss" mnDraw
        = .ok (mAdd mean (mMul (mMap Real.sqrt cov) eps))) ∧
    (∀ (means covs : T3) (pl eps : Mat) (mnDraw : Mat → List ℕ),
      ∃ s, sample [.t3 means, .t3 covs, .t2 pl] eps "gm" mnDraw = .ok s) ∧
    (∀ (dist : String) (params : List Tsr) (eps : Mat) (mnDraw : Mat → List ℕ),
      strContains dist "gauss" = true ∨ strContains dist "gm" = true →
      sample params eps dist mnDraw ≠ .error .notImplemented) := by
  refine ⟨?_, ?_, ?_, ?_⟩
  · intro dist params eps mnDraw h1 h2 h3
    cases hb : strContains dist "bin" with
    | false => simp [sample, stripBin, sampleCore, hb, h1, h2]
    | true =>
      have hne : params ≠ [] := h3 hb
      have hsome : params.getLast?.isSome := by
        cases hl : params.getLast? with
        | none => exact absurd (List.getLast?_eq_none_iff.mp hl) hne
        | some lg => rfl
      obtain ⟨lg, hlg⟩ := Option.isSome_iff_exists.mp hsome
      simp [sample, stripBin, sampleCore, hb, hlg, h1, h2]
  · intro mean cov eps mnDraw
    rfl
  · intro means covs pl eps mnDraw
    exact ⟨_, rfl⟩
  · intro dist params eps mnDraw h
    cases hstrip : stripBin params dist with
    | error e =>
      have hs : sample params eps dist mnDraw = .error e := by
        simp only [sample, hstrip]
      rw [hs]
      intro hc
      injection hc with hc
      subst hc
      exact stripBin_ne_notImplemented params dist hstrip
    | ok pr =>
      obtain ⟨params2, bl⟩ := pr
      cases hcore : sampleCore params2 eps dist mnDraw with
      | error e =>
        have hs : sample params eps dist mnDraw = .error e := by
          simp only [sample, hstrip, hcore]
        rw [hs]
        intro hc
        injection hc with hc
        subst hc
        exact sampleCore_ne_notImplemented params2 eps dist mnDraw h hcore
      | ok s =>
        have hs : sample params eps dist mnDraw = appendBin s bl dist := by
          simp only [sample, hstrip, hcore]
        rw [hs]
        exact appendBin_ne_notImplemented s bl dist

/-- witness for C5: the unrecognized family `"poisson"` fails with the
unsupported-family error, and the recognized keyword `"gauss"` succeeds on
well-formed parameters. -/
theorem sample_family_dispatch_witness :
    (strContains "poisson" "gauss" = false ∧ strContains "poisson" "gm" = false ∧
      sample [] [] "poisson" (fun _ => []) = Except.error SampErr.notImplemented) ∧
    sample [Tsr.t2 [[0]], Tsr.t2 [[1]]] [[0]] "gauss" (fun _ => [])
      = Except.ok (mAdd [[0]] (mMul (mMap Real.sqrt [[1]]) [[0]])) :=
  ⟨⟨by decide, by decide,
     sample_family_dispatch.1 "poisson" [] [] (fun _ => []) (by decide) (by decide)
       (fun h => absurd h (by decide))⟩,
   sample_family_dispatch.2.1 [[0]] [[1]] [[0]] (fun _ => [])⟩

/-- C1: with masking disabled, whenever the model dispatch succeeds the
returned bound is `kl_weight * mean(KL) - mean(log_p)`, plus
`mean(cross_entropy)` exactly when the configured model variant has a
Bernoulli channel, where the KL term is always the closed-form
diagonal-Gaussian divergence from the posterior `(mean_z, cov_z)` to the
prior `(mean_0, cov_0)`, regardless of the output family. -/
theorem loss_unmasked_bound (x_target mean_0 cov_0 mean_z cov_z : Mat)
    (params_out : List Tsr) (pd : ParamDict) (hm : pd.masking = false)
    (lp : Vec) (n e d : DTen) (ce : List Vec)
    (hbody : lossBody params_out x_target pd = .ok (lp, n, e, d, ce)) :
    Except.map Prod.fst (loss x_target mean_0 cov_0 mean_z cov_z params_out pd)
      = .ok (pd.kl_weight
            * reduceMean (gaussian_kl_div mean_z cov_z mean_0 cov_0 (pd.z_dim : ℝ))
          - reduceMean lp
          + (if strContains pd.model "bin" = true then reduceMean (ce.headD []) else 0)) := by
  simp only [loss, hbody, hm]
  cases hbin : strContains pd.model "bin" <;> simp [hbin, Except.map]

/-- witness for C1 on a one-row Gaussian configuration. -/
theorem loss_unmasked_bound_witness :
    ((⟨"gauss_out", 1, 1, 1, 1, 1, 1, false, 0⟩ : ParamDict).masking = false ∧
      lossBody [Tsr.t2 [[0]], Tsr.t2 [[1]]] [[0]] ⟨"gauss_out", 1, 1, 1, 1, 1, 1, false, 0⟩
        = .ok ((gaussian_log_p ([[0]], [[1]]) [[0]] ((1 : ℕ) : ℝ)).1,
            .d1 (gaussian_log_p ([[0]], [[1]]) [[0]] ((1 : ℕ) : ℝ)).2.1,
            .d1 (gaussian_log_p ([[0]], [[1]]) [[0]] ((1 : ℕ) : ℝ)).2.2.1,
            .d2 (gaussian_log_p ([[0]], [[1]]) [[0]] ((1 : ℕ) : ℝ)).2.2.2, [])) ∧
    Except.map Prod.fst
        (loss [[0]] [[0]] [[1]] [[0]] [[1]] [Tsr.t2 [[0]], Tsr.t2 [[1]]]
          ⟨"gauss_out", 1, 1, 1, 1, 1, 1, false, 0⟩)
      = .ok ((1 : ℝ)
            * reduceMean (gaussian_kl_div [[0]] [[1]] [[0]] [[1]] ((1 : ℕ) : ℝ))
          - reduceMean (gaussian_log_p ([[0]], [[1]]) [[0]] ((1 : ℕ) : ℝ)).1
          + (if strContains "gauss_out" "bin" = true
              then reduceMean (([] : List Vec).headD []) else 0)) :=
  ⟨⟨rfl, rfl⟩,
    loss_unmasked_bound [[0]] [[0]] [[1]] [[0]] [[1]] [Tsr.t2 [[0]], Tsr.t2 [[1]]]
      ⟨"gauss_out", 1, 1, 1, 1, 1, 1, false, 0⟩ rfl _ _ _ _ _ rfl⟩

/-- C9: with masking enabled, the returned `log_normalizer`, `log_exponent`
and `mean_abs_error` sub-losses are plain unmasked means over the full batch
(`reduceMeanAll` of the raw per-step tensors, masked rows included), whereas
the returned KL, log-likelihood and cross-entropy sub-losses are the
mask-normalized sums (`maskWhere …` summed and divided by the live count). -/
theorem loss_masked_sub_losses (x_target mean_0 cov_0 mean_z cov_z : Mat)
    (params_out : List Tsr) (pd : ParamDict) (hm : pd.masking = true)
    (lp : Vec) (n e d : DTen) (ce : List Vec)
    (hbody : lossBody params_out x_target pd = .ok (lp, n, e, d, ce)) :
    loss x_target mean_0 cov_0 mean_z cov_z params_out pd
      = .ok
          (let mask := (mMap (fun v => |v - pd.mask_value|) x_target).map
              (fun row => sign (rowMax row));
           let live := mask.sum;
           let kl2 := (maskWhere mask
              (gaussian_kl_div mean_z cov_z mean_0 cov_0 (pd.z_dim : ℝ))).sum / live;
           let lp2 := (maskWhere mask lp).sum / live;
           let ce2 := (maskWhere mask (ce.headD [])).sum / live;
           (pd.kl_weight * kl2 - lp2 + (if strContains pd.model "bin" = true then ce2 else 0),
            [STen.s0 kl2, STen.s0 lp2, STen.s0 (reduceMeanAll n), STen.s0 (reduceMeanAll e),
              STen.s0 (reduceMeanAll d)]
              ++ (if strContains pd.model "bin" = true then [STen.s0 ce2] else []))) := by
  simp only [loss, hbody, hm]
  cases hbin : strContains pd.model "bin" <;> simp [hbin]

/-- witness for C9 on a one-row Gaussian configuration with a live target row. -/
theorem loss_masked_sub_losses_witness :
    ((⟨"gauss_out", 1, 1, 1, 1, 1, 1, true, 0⟩ : ParamDict).masking = true ∧
      lossBody [Tsr.t2 [[0]], Tsr.t2 [[1]]] [[1]] ⟨"gauss_out", 1, 1, 1, 1, 1, 1, true, 0⟩
        = .ok ((gaussian_log_p ([[0]], [[1]]) [[1]] ((1 : ℕ) : ℝ)).1,
            .d1 (gaussian_log_p ([[0]], [[1]]) [[1]] ((1 : ℕ) : ℝ)).2.1,
            .d1 (gaussian_log_p ([[0]], [[1]]) [[1]] ((1 : ℕ) : ℝ)).2.2.1,
            .d2 (gaussian_log_p ([[0]], [[1]]) [[1]] ((1 : ℕ) : ℝ)).2.2.2, [])) ∧
    loss [[1]] [[0]] [[1]] [[0]] [[1]] [Tsr.t2 [[0]], Tsr.t2 [[1]]]
        ⟨"gauss_out", 1, 1, 1, 1, 1, 1, true, 0⟩
      = .ok
          (let mask := (mMap (fun v => |v - (0 : ℝ)|) [[1]]).map
              (fun row => sign (rowMax row));
           let live := mask.sum;
           let kl2 := (maskWhere mask
              (gaussian_kl_div [[0]] [[1]] [[0]] [[1]] ((1 : ℕ) : ℝ))).sum / live;
           let lp2 := (maskWhere mask (gaussian_log_p ([[0]], [[1]]) [[1]] ((1 : ℕ) : ℝ)).1).sum / live;
           let ce2 := (maskWhere mask (([] : List Vec).headD [])).sum / live;
           ((1 : ℝ) * kl2 - lp2 + (if strContains "gauss_out" "bin" = true then ce2 else 0),
            [STen.s0 kl2, STen.s0 lp2,
              STen.s0 (reduceMeanAll (.d1 (gaussian_log_p ([[0]], [[1]]) [[1]] ((1 : ℕ) : ℝ)).2.1)),
              STen.s0 (reduceMeanAll (.d1 (gaussian_log_p ([[0]], [[1]]) [[1]] ((1 : ℕ) : ℝ)).2.2.1)),
              STen.s0 (reduceMeanAll (.d2 (gaussian_log_p ([[0]], [[1]]) [[1]] ((1 : ℕ) : ℝ)).2.2.2))]
              ++ (if strContains "gauss_out" "bin" = true then [STen.s0 ce2] else []))) :=
  ⟨⟨rfl, rfl⟩,
    loss_masked_sub_losses [[1]] [[0]] [[1]] [[0]] [[1]] [Tsr.t2 [[0]], Tsr.t2 [[1]]]
      ⟨"gauss_out", 1, 1, 1, 1, 1, 1, true, 0⟩ rfl _ _ _ _ _ rfl⟩

/-- the starting value bounds a left max-fold. -/
theorem le_foldl_max (l : List ℝ) : ∀ a : ℝ, a ≤ l.foldl max a := by
  induction l with
  | nil => intro a; simp
  | cons b bs ih =>
    intro a
    simpa using le_trans (le_max_left a b) (ih (max a b))

/-- every member bounds a left max-fold from below. -/
theorem mem_le_foldl_max : ∀ (xs : List ℝ) (a x : ℝ), x ∈ a :: xs → x ≤ xs.foldl max a := by
  intro xs
  induction xs with
  | nil =>
    intro a x hx
    simp only [List.mem_singleton] at hx
    simp [hx]
  | cons b bs ih =>
    intro a x hx
    simp only [List.foldl_cons]
    rcases List.mem_cons.mp hx with h | h
    · subst h; exact le_trans (le_max_left _ _) (le_foldl_max _ _)
    · rcases List.mem_cons.mp h with h2 | h2
      · subst h2; exact le_trans (le_max_right _ _) (le_foldl_max _ _)
      · exact ih (max a b) x (List.mem_cons_of_mem _ h2)

/-- `tf.reduce_max` dominates every entry of the reduced row. -/
theorem rowMax_ge_mem (v : Vec) (x : ℝ) (hx : x ∈ v) : x ≤ rowMax v := by
  cases v with
  | nil => simp at hx
  | cons a xs => exact mem_le_foldl_max xs a x hx

/-- a row with an entry different from the sentinel gets mask value 1. -/
theorem mask_live (mv : ℝ) (row : Vec) (h : ∃ x ∈ row, x ≠ mv) :
    sign (rowMax (row.map (fun v => |v - mv|))) = 1 := by
  obtain ⟨x, hx, hne⟩ := h
  have h1 : (0 : ℝ) < |x - mv| := abs_pos.mpr (sub_ne_zero.mpr hne)
  have h2 : |x - mv| ≤ rowMax (row.map (fun v => |v - mv|)) :=
    rowMax_ge_mem _ _ (List.mem_map_of_mem _ hx)
  have h3 : 0 < rowMax (row.map (fun v => |v - mv|)) := lt_of_lt_of_le h1 h2
  simp [sign, h3]

/-- if no target row consists entirely of the sentinel the computed mask is
all ones. -/
theorem mask_all_ones (x_target : Mat) (mv : ℝ)
    (h : ∀ row ∈ x_target, ∃ x ∈ row, x ≠ mv) :
    (mMap (fun v => |v - mv|) x_target).map (fun row => sign (rowMax row))
      = List.replicate x_target.length 1 := by
  induction x_target with
  | nil => rfl
  | cons r rs ih =>
    simp only [mMap, List.map_cons, List.length_cons, List.replicate_succ]
    rw [mask_live mv r (h r (List.mem_cons_self _ _))]
    have := ih (fun row hr => h row (List.mem_cons_of_mem _ hr))
    simp only [mMap] at this
    rw [this]

/-- masking with an all-ones mask leaves a vector of matching length
unchanged. -/
theorem maskWhere_replicate_one : ∀ (k : ℕ) (v : Vec), v.length = k →
    maskWhere (List.replicate k 1) v = v := by
  intro k
  induction k with
  | zero =>
    intro v hv
    rw [List.length_eq_zero.mp hv]
    rfl
  | succ j ih =>
    intro v hv
    cases v with
    | nil => simp at hv
    | cons a as =>
      simp only [List.replicate_succ, maskWhere, List.zipWith_cons_cons]
      rw [if_neg one_ne_zero]
      have := ih as (by simpa using hv)
      simp only [maskWhere] at this
      rw [this]

/-- the sum of an all-ones mask is the (real-cast) row count. -/
theorem sum_replicate_one (k : ℕ) : (List.replicate k (1 : ℝ)).sum = (k : ℝ) := by
  simp [List.sum_replicate]

/-- C6: when no target row is entirely equal to the mask sentinel (every row
has some entry different from it), the loss aggregator with masking enabled
returns the same bound as with masking disabled on the same inputs: the sum
over live rows divided by the live-row count coincides with the plain batch
mean.  The length hypotheses say that the per-row loss vectors have one entry
per target row, as TF shape checking guarantees. -/
theorem loss_mask_all_live_eq_unmasked (x_target mean_0 cov_0 mean_z cov_z : Mat)
    (params_out : List Tsr) (pd : ParamDict) (hm : pd.masking = true)
    (lp : Vec) (n e d : DTen) (ce : List Vec)
    (hbody : lossBody params_out x_target pd = .ok (lp, n, e, d, ce))
    (hlive : ∀ row ∈ x_target, ∃ x ∈ row, x ≠ pd.mask_value)
    (hlp : lp.length = x_target.length)
    (hkl : (gaussian_kl_div mean_z cov_z mean_0 cov_0 (pd.z_dim : ℝ)).length
        = x_target.length)
    (hce : strContains pd.model "bin" = true → (ce.headD []).length = x_target.length) :
    Except.map Prod.fst (loss x_target mean_0 cov_0 mean_z cov_z params_out pd)
      = Except.map Prod.fst (loss x_target mean_0 cov_0 mean_z cov_z params_out
          { pd with masking := false }) := by
  have hbody2 : lossBody params_out x_target { pd with masking := false }
      = .ok (lp, n, e, d, ce) := hbody
  simp only [loss, hbody, hbody2, hm]
  rw [mask_all_ones x_target pd.mask_value hlive]
  rw [maskWhere_replicate_one _ lp hlp]
  rw [maskWhere_replicate_one _ _ hkl]
  rw [sum_replicate_one]
  cases hbin : strContains pd.model "bin"
  · simp [hbin, reduceMean, hlp, hkl, Except.map]
  · rw [maskWhere_replicate_one _ _ (hce hbin)]
    have hcel : (ce.head?.getD []).length = x_target.length := by
      rw [← List.headD_eq_head?]; exact hce hbin
    simp [hbin, reduceMean, hlp, hkl, hcel, Except.map]

/-- witness for C6 on a one-row Gaussian configuration whose target row is
live (different from the sentinel). -/
theorem loss_mask_all_live_eq_unmasked_witness :
    ((⟨"gauss_out", 1, 1, 1, 1, 1, 1, true, 0⟩ : ParamDict).masking = true ∧
      (∀ row ∈ ([[1]] : Mat), ∃ x ∈ row, x ≠ (0 : ℝ)) ∧
      (gaussian_log_p ([[0]], [[1]]) [[1]] ((1 : ℕ) : ℝ)).1.length = ([[1]] : Mat).length) ∧
    Except.map Prod.fst (loss [[1]] [[0]] [[1]] [[0]] [[1]] [Tsr.t2 [[0]], Tsr.t2 [[1]]]
        ⟨"gauss_out", 1, 1, 1, 1, 1, 1, true, 0⟩)
      = Except.map Prod.fst (loss [[1]] [[0]] [[1]] [[0]] [[1]] [Tsr.t2 [[0]], Tsr.t2 [[1]]]
          { (⟨"gauss_out", 1, 1, 1, 1, 1, 1, true, 0⟩ : ParamDict) with masking := false }) :=
  ⟨⟨rfl, by simp, rfl⟩,
    loss_mask_all_live_eq_unmasked [[1]] [[0]] [[1]] [[0]] [[1]]
      [Tsr.t2 [[0]], Tsr.t2 [[1]]] ⟨"gauss_out", 1, 1, 1, 1, 1, 1, true, 0⟩ rfl
      _ _ _ _ _ rfl (by simp) rfl rfl (fun h => absurd h (by decide))⟩

/-- C10: in the generation step the latent is always drawn by the Gaussian
reparameterization `mean + sqrt(cov) * eps` from the prior parameters
(`phi_prior` of the hidden state), for every configured model string; the
configured model family enters only as the family argument of the output
`sample` call. -/
theorem generation_latent_from_prior {F : Type} (pd : ParamDict) (fd : FunDict F)
    (hid : Mat) (fs : F) (ez ex : Mat) (mnDraw : Mat → List ℕ) (m0 c0 : Mat)
    (hprior : fd.phi_prior hid = [Tsr.t2 m0, Tsr.t2 c0]) :
    generation hid fs ez ex pd fd mnDraw
      = (sample (fd.phi_dec (fd.phi_z (mAdd m0 (mMul (mMap Real.sqrt c0) ez))) hid)
            ex pd.model mnDraw).map
          (fun x =>
            (x, (fd.f_theta (matConcatCols (fd.phi_x x)
                  (fd.phi_z (mAdd m0 (mMul (mMap Real.sqrt c0) ez)))) fs).1,
                (fd.f_theta (matConcatCols (fd.phi_x x)
                  (fd.phi_z (mAdd m0 (mMul (mMap Real.sqrt c0) ez)))) fs).2)) := by
  have hz : sample [Tsr.t2 m0, Tsr.t2 c0] ez "gauss" mnDraw
      = .ok (mAdd m0 (mMul (mMap Real.sqrt c0) ez)) := rfl
  simp only [generation, hprior, hz]
  cases hx : sample (fd.phi_dec (fd.phi_z (mAdd m0 (mMul (mMap Real.sqrt c0) ez))) hid)
      ex pd.model mnDraw with
  | error e => simp [Except.map]
  | ok x => simp [Except.map]

/-- witness for C10 with identity-style collaborators and a Gaussian model. -/
theorem generation_latent_from_prior_witness :
    (let fdW : FunDict Unit := ⟨fun m => m, fun _ => [Tsr.t2 [[0]], Tsr.t2 [[1]]],
        fun _ _ => ([[0]], [[1]]), fun m => m, fun _ _ => [Tsr.t2 [[5]], Tsr.t2 [[1]]],
        fun m f => (m, f)⟩;
     fdW.phi_prior [[0]] = [Tsr.t2 [[0]], Tsr.t2 [[1]]] ∧
     generation [[0]] () [[0]] [[0]] ⟨"gauss_out", 1, 1, 1, 1, 1, 1, false, 0⟩ fdW
        (fun _ => [])
       = (sample (fdW.phi_dec (fdW.phi_z (mAdd [[0]] (mMul (mMap Real.sqrt [[1]]) [[0]])))
              [[0]]) [[0]] (⟨"gauss_out", 1, 1, 1, 1, 1, 1, false, 0⟩ : ParamDict).model
              (fun _ => [])).map
          (fun x =>
            (x, (fdW.f_theta (matConcatCols (fdW.phi_x x)
                  (fdW.phi_z (mAdd [[0]] (mMul (mMap Real.sqrt [[1]]) [[0]])))) ()).1,
                (fdW.f_theta (matConcatCols (fdW.phi_x x)
                  (fdW.phi_z (mAdd [[0]] (mMul (mMap Real.sqrt [[1]]) [[0]])))) ()).2))) :=
  ⟨rfl, generation_latent_from_prior _ _ _ _ _ _ _ [[0]] [[1]] rfl⟩

/-- splicing a frame into slot `c` of a buffer keeps the length. -/
theorem write_slot_length {α : Type _} (l : List α) (a : α) (c : ℕ) (hc : c < l.length) :
    (l.take c ++ [a] ++ l.drop (c + 1)).length = l.length := by
  simp only [List.length_append, List.length_take, List.length_drop, List.length_singleton]
  omega

/-- splicing a frame into slot `c` changes exactly slot `c`. -/
theorem write_slot_getD {α : Type _} (l : List α) (a dflt : α) (c : ℕ)
    (hc : c < l.length) (j : ℕ) :
    (l.take c ++ [a] ++ l.drop (c + 1)).getD j dflt
      = if j = c then a else l.getD j dflt := by
  have hmin : min c l.length = c := Nat.min_eq_left (le_of_lt hc)
  rcases lt_trichotomy j c with h | h | h
  · rw [if_neg (by omega)]
    simp only [List.getD_eq_getElem?_getD]
    rw [List.getElem?_append_left
        (by simp only [List.length_take, List.length_append, List.length_singleton, hmin]; omega),
      List.getElem?_append_left (by simp only [List.length_take, hmin]; omega),
      List.getElem?_take_of_lt h]
  · subst h
    rw [if_pos rfl]
    simp only [List.getD_eq_getElem?_getD]
    rw [List.getElem?_append_left
        (by simp only [List.length_take, List.length_append, List.length_singleton, hmin]; omega),
      List.getElem?_append_right (by simp only [List.length_take, hmin]; omega)]
    simp [List.length_take, hmin]
  · rw [if_neg (by omega)]
    simp only [List.getD_eq_getElem?_getD]
    rw [List.getElem?_append_right
        (by simp only [List.length_take, List.length_append, List.length_singleton, hmin]; omega)]
    rw [List.getElem?_drop]
    have hidx : c + 1 + (j - (l.take c ++ [a]).length) = j := by
      simp only [List.length_append, List.length_take, List.length_singleton, hmin]
      omega
    rw [hidx]

/-- C8: for every step index `count` within the buffer, `gen_loop` writes the
newly sampled frame into slot `count` of the output sequence buffer, leaves
every other slot unchanged, returns the noise tensors `eps_z` and `eps_x`
unmodified, and increments the counter. -/
theorem gen_loop_writes_single_slot {F : Type} (pd : ParamDict) (fd : FunDict F)
    (mnDraw : Mat → List ℕ) (s s2 : GenAcc F) (x_t f_out : Mat) (fs2 : F)
    (hgen : generation s.hid_pl s.f_state (s.eps_z.getD s.count [])
        (s.eps_x.getD s.count []) pd fd mnDraw = .ok (x_t, f_out, fs2))
    (hcount : s.count < s.x_pl.length)
    (hloop : gen_loop pd fd mnDraw s = .ok s2) :
    s2.x_pl.length = s.x_pl.length ∧
    s2.x_pl.getD s.count [] = x_t ∧
    (∀ j, j ≠ s.count → s2.x_pl.getD j [] = s.x_pl.getD j []) ∧
    s2.eps_z = s.eps_z ∧ s2.eps_x = s.eps_x ∧ s2.count = s.count + 1 := by
  have hrun : gen_loop pd fd mnDraw s
      = .ok ⟨s.x_pl.take s.count ++ [x_t] ++ s.x_pl.drop (s.count + 1),
          f_out, s.count + 1, fs2, s.eps_z, s.eps_x⟩ := by
    simp only [gen_loop, hgen]
  rw [hrun] at hloop
  injection hloop with h2
  subst h2
  refine ⟨write_slot_length _ _ _ hcount, ?_, ?_, rfl, rfl, rfl⟩
  · rw [write_slot_getD _ _ _ _ hcount]
    simp
  · intro j hj
    rw [write_slot_getD _ _ _ _ hcount, if_neg hj]

/-- witness for C8: a two-slot buffer at step 0; the first slot receives the
sampled frame, the second is untouched, the noise streams come back as they
went in. -/
theorem gen_loop_writes_single_slot_witness :
    (let fdW : FunDict Unit := ⟨fun _ => [], fun _ => [Tsr.t2 [], Tsr.t2 []],
        fun _ _ => ([], []), fun _ => [], fun _ _ => [Tsr.t2 [], Tsr.t2 []],
        fun _ _ => ([], ())⟩;
     let pdW : ParamDict := ⟨"gauss_out", 1, 1, 1, 1, 2, 1, false, 0⟩;
     let sW : GenAcc Unit := ⟨[[[9]], [[8]]], [[0]], 0, (), [[[0]], [[0]]], [[[0]], [[0]]]⟩;
     let sW2 : GenAcc Unit := ⟨[[], [[8]]], [], 1, (), [[[0]], [[0]]], [[[0]], [[0]]]⟩;
     (generation sW.hid_pl sW.f_state (sW.eps_z.getD sW.count [])
        (sW.eps_x.getD sW.count []) pdW fdW (fun _ => []) = .ok ([], [], ())) ∧
     sW.count < sW.x_pl.length ∧
     gen_loop pdW fdW (fun _ => []) sW = .ok sW2 ∧
     (sW2.x_pl.length = sW.x_pl.length ∧
      sW2.x_pl.getD sW.count [] = [] ∧
      (∀ j, j ≠ sW.count → sW2.x_pl.getD j [] = sW.x_pl.getD j []) ∧
      sW2.eps_z = sW.eps_z ∧ sW2.eps_x = sW.eps_x ∧ sW2.count = sW.count + 1)) :=
  ⟨rfl, by decide, rfl,
    gen_loop_writes_single_slot ⟨"gauss_out", 1, 1, 1, 1, 2, 1, false, 0⟩
      ⟨fun _ => [], fun _ => [Tsr.t2 [], Tsr.t2 []], fun _ _ => ([], []), fun _ => [],
        fun _ _ => [Tsr.t2 [], Tsr.t2 []], fun _ _ => ([], ())⟩
      (fun _ => []) ⟨[[[9]], [[8]]], [[0]], 0, (), [[[0]], [[0]]], [[[0]], [[0]]]⟩
      ⟨[[], [[8]]], [], 1, (), [[[0]], [[0]]], [[[0]], [[0]]]⟩ [] [] () rfl (by decide) rfl⟩

/-- transposing a 1×1 nested list is the identity. -/
theorem transpose_one_one {α : Type _} (x : α) : List.transpose [[x]] = [[x]] := rfl

/-- transposing a 1×2 nested list. -/
theorem transpose_one_two {α : Type _} (a b : α) : List.transpose [[a, b]] = [[a], [b]] := rfl

/-- transposing a 2×1 nested list. -/
theorem transpose_two_one {α : Type _} (a b : α) : List.transpose [[a], [b]] = [[a, b]] := rfl

/-- C2 (code bug): in `gm_log_p` the mixture weight enters the per-component
term as the softmax **probability**, not as its logarithm.  At a
single-component input with logit 3 the softmax weight is 1, whose logarithm
is 0; the code returns the Gaussian log-density plus 1 (the probability),
which differs from the log-sum-exp combination with the log-weight
(`log 1 = 0`) demanded by the claim. -/
theorem gm_log_p_weight_is_probability :
    softmaxRow [3] = [1] ∧
    (gm_log_p ([[[5]]], [[[1]]], [[3]]) [[5]] 1).1
      = [(-0.5 : ℝ) * Real.log (2 * Real.pi) + 1] ∧
    (gm_log_p ([[[5]]], [[[1]]], [[3]]) [[5]] 1).1
      ≠ [(-0.5 : ℝ) * Real.log (2 * Real.pi) + Real.log 1] := by
  have hsm : softmaxRow [3] = [1] := by
    simp [softmaxRow, div_self (Real.exp_ne_zero 3)]
  have h1 : (gm_log_p ([[[5]]], [[[1]]], [[3]]) [[5]] 1).1
      = [(-0.5 : ℝ) * Real.log (2 * Real.pi) + 1] := by
    simp [gm_log_p, softmax, softmaxRow, reduceLogSumExp0, rowSums, mAdd, mSub, mMul, mDiv,
      mMap, vAdd, vSub, vMul, vDiv, transpose_one_one, Real.log_one, Real.log_exp,
      div_self (Real.exp_ne_zero 3)]
  refine ⟨hsm, h1, ?_⟩
  rw [h1, Real.log_one]
  intro h
  have h2 := List.head_eq_of_cons_eq h
  linarith [h2]

/-- C3 (code bug): with a single mixture component (`K = 1`), `gm_log_p` does
not reduce to `gaussian_log_p`: because the softmax weight (here 1) is added
instead of its logarithm (0), the mixture log-likelihood exceeds the plain
Gaussian log-likelihood by exactly 1 at the same mean, covariance and
target. -/
theorem gm_log_p_single_component_offset :
    (gm_log_p ([[[0]]], [[[1]]], [[0]]) [[0]] 1).1
      = [(-0.5 : ℝ) * Real.log (2 * Real.pi) + 1] ∧
    (gaussian_log_p ([[0]], [[1]]) [[0]] 1).1 = [(-0.5 : ℝ) * Real.log (2 * Real.pi)] ∧
    (gm_log_p ([[[0]]], [[[1]]], [[0]]) [[0]] 1).1
      ≠ (gaussian_log_p ([[0]], [[1]]) [[0]] 1).1 := by
  have h1 : (gm_log_p ([[[0]]], [[[1]]], [[0]]) [[0]] 1).1
      = [(-0.5 : ℝ) * Real.log (2 * Real.pi) + 1] := by
    simp [gm_log_p, softmax, softmaxRow, reduceLogSumExp0, rowSums, mAdd, mSub, mMul, mDiv,
      mMap, vAdd, vSub, vMul, vDiv, transpose_one_one, Real.log_one, Real.exp_zero,
      Real.log_exp]
  have h2 : (gaussian_log_p ([[0]], [[1]]) [[0]] 1).1
      = [(-0.5 : ℝ) * Real.log (2 * Real.pi)] := by
    simp [gaussian_log_p, rowSums, mSub, mMul, mDiv, mMap, vAdd, vSub, vMul, vDiv,
      Real.log_one]
  refine ⟨h1, h2, ?_⟩
  rw [h1, h2]
  intro h
  have h3 := List.head_eq_of_cons_eq h
  linarith [h3]

/-- C4 (counterexample): under the claimed `[K, batch, dim]` layout of the
mixture means, batch row 0 with drawn component 1 should receive
`means[1][0] = [30]` and row 1 with drawn component 0 should receive
`means[0][1] = [20]`; the code's `gather_nd` instead indexes
`means[row][choice]`, returning `[20]` and `[30]` — so the claim's gather is
refuted (the code is only correct for a `[batch, K, dim]` layout). -/
theorem sample_gm_layout_counterexample :
    sample [Tsr.t3 [[[10], [20]], [[30], [40]]], Tsr.t3 [[[1], [1]], [[1], [1]]],
        Tsr.t2 [[0, 0], [0, 0]]] [[0], [0]] "gm" (fun _ => [1, 0])
      = .ok [[20 + Real.sqrt 1 * 0], [30 + Real.sqrt 1 * 0]] ∧
    ([[20 + Real.sqrt 1 * 0], [30 + Real.sqrt 1 * 0]] : Mat)
      ≠ [[30 + Real.sqrt 1 * 0], [20 + Real.sqrt 1 * 0]] := by
  refine ⟨rfl, ?_⟩
  intro h
  have h2 := List.head_eq_of_cons_eq h
  have h3 := List.head_eq_of_cons_eq h2
  norm_num at h3

/-- C4 (amended): interpreting the mixture means and covariances with their
actual `[batch, K, dim]` layout (row first, component second — the layout
`gm_log_p`'s transposes also assume), `sample` on family `"gm"` draws one
component index per batch row from `pi_logits` (via the multinomial oracle)
and returns, for every batch row `i`,
`means[i][choice_i] + sqrt(covs[i][choice_i]) * eps[i]`. -/
theorem sample_gm_rowwise_gather (means covs : T3) (pl eps : Mat)
    (mnDraw : Mat → List ℕ) (i : ℕ) (hi : i < (mnDraw pl).length)
    (hie : i < eps.length) (s : Mat)
    (hok : sample [Tsr.t3 means, Tsr.t3 covs, Tsr.t2 pl] eps "gm" mnDraw = .ok s) :
    s.getD i [] = vAdd ((means.getD i []).getD ((mnDraw pl).getD i 0) [])
      (vMul (((covs.getD i []).getD ((mnDraw pl).getD i 0) []).map Real.sqrt)
        (eps.getD i [])) := by
  have hE : sample [Tsr.t3 means, Tsr.t3 covs, Tsr.t2 pl] eps "gm" mnDraw
      = .ok (mAdd
          (((List.range (mnDraw pl).length).zip (mnDraw pl)).map
            (fun p => (means.getD p.1 []).getD p.2 []))
          (mMul (mMap Real.sqrt
            (((List.range (mnDraw pl).length).zip (mnDraw pl)).map
              (fun p => (covs.getD p.1 []).getD p.2 []))) eps)) := rfl
  rw [hE] at hok
  injection hok with hok
  subst hok
  have hidx : ((List.range (mnDraw pl).length).zip (mnDraw pl))[i]?
      = some (i, (mnDraw pl).getD i 0) := by
    rw [List.zip, List.getElem?_zipWith, List.getElem?_range hi,
      List.getElem?_eq_getElem hi]
    rw [List.getD_eq_getElem?_getD, List.getElem?_eq_getElem hi]
    rfl
  have hmean : (((List.range (mnDraw pl).length).zip (mnDraw pl)).map
      (fun p => (means.getD p.1 []).getD p.2 []))[i]?
      = some ((means.getD i []).getD ((mnDraw pl).getD i 0) []) := by
    rw [List.getElem?_map, hidx]
    rfl
  have hcov : (mMap Real.sqrt (((List.range (mnDraw pl).length).zip (mnDraw pl)).map
      (fun p => (covs.getD p.1 []).getD p.2 [])))[i]?
      = some (((covs.getD i []).getD ((mnDraw pl).getD i 0) []).map Real.sqrt) := by
    rw [mMap, List.getElem?_map, List.getElem?_map, hidx]
    rfl
  have heps : eps[i]? = some (eps.getD i []) := by
    rw [List.getD_eq_getElem?_getD, List.getElem?_eq_getElem hie]
    rfl
  rw [List.getD_eq_getElem?_getD, mAdd, List.getElem?_zipWith, hmean, mMul,
    List.getElem?_zipWith, hcov, heps]
  rfl

/-- witness for the amended C4 on a one-row, one-component instance. -/
theorem sample_gm_rowwise_gather_witness :
    (0 < ((fun _ : Mat => [0]) [[0]]).length ∧ 0 < ([[0]] : Mat).length ∧
      sample [Tsr.t3 [[[7]]], Tsr.t3 [[[1]]], Tsr.t2 [[0]]] [[0]] "gm" (fun _ => [0])
        = .ok [[7 + Real.sqrt 1 * 0]]) ∧
    ([[7 + Real.sqrt 1 * 0]] : Mat).getD 0 []
      = vAdd ((([[[7]]] : T3).getD 0 []).getD (((fun _ : Mat => [0]) [[0]]).getD 0 0) [])
        (vMul (((([[[1]]] : T3).getD 0 []).getD (((fun _ : Mat => [0]) [[0]]).getD 0 0)
            []).map Real.sqrt) (([[0]] : Mat).getD 0 [])) :=
  ⟨⟨by decide, by decide, rfl⟩,
    sample_gm_rowwise_gather [[[7]]] [[[1]]] [[0]] [[0]] (fun _ => [0]) 0
      (by decide) (by decide) [[7 + Real.sqrt 1 * 0]] rfl⟩

end VRNN
